import Mathlib

/-!
A verification development for `main.py`, a script that converts a JSON
export of per-field Czech translation records into a flat CSV table.

The script's pipeline is: (1) aggregate the records by SKU into per-product
drafts, (2) parse each product's HTML body and extract labeled fields plus a
raw nutrient block, (3) split the nutrient block into (name, quantity) pairs
with two regexes, (4) flatten every product into CSV rows where only the
first row carries the product-level columns.

Modelling conventions:
* Python strings become `String` / `List Char`.
* `str.strip` is modelled for the ASCII whitespace characters it removes
  (space, tab, newline, carriage return, vertical tab, form feed); the data
  this program manipulates contains no Unicode whitespace.
* `str.lower` is modelled for ASCII letters plus the uppercase Czech letters
  occurring in this program's label alphabet.
* The two nutrient regexes are modelled by hand with Python `re` semantics
  (backtracking, `.` not matching a newline, negated classes matching any
  other character including newline).
* `bs4.BeautifulSoup` is an external library; the code only consumes the
  ordered list of `<p>` tags, and for each, its flat stream of strings with
  `<strong>` spans distinguished.  A paragraph is therefore modelled as a
  list of inline nodes (plain string or strong span), a document as a list
  of paragraphs, and HTML parsing itself as an abstract `String → Doc`
  function where a theorem needs it.
-/

/-- The ASCII whitespace characters removed by Python `str.strip()`:
space, `\t`, `\n`, `\r`, `\x0b` (vertical tab), `\x0c` (form feed). -/
def isPySpace (c : Char) : Bool :=
  c = ' ' || c = '\t' || c = '\n' || c = '\r' || c.toNat = 11 || c.toNat = 12

/-- Left part of Python `str.strip()`: drop leading whitespace. -/
def pyStripLeft (s : List Char) : List Char :=
  s.dropWhile isPySpace

/-- Right part of Python `str.strip()`: drop trailing whitespace. -/
def pyStripRight (s : List Char) : List Char :=
  (s.reverse.dropWhile isPySpace).reverse

/-- Python `str.strip()`: drop leading and trailing whitespace. -/
def pyStrip (s : List Char) : List Char :=
  pyStripRight (pyStripLeft s)

/-- Python `str.lower()` on the alphabet this program manipulates:
ASCII letters and the uppercase Czech letters of the label set. -/
def pyLowerChar (c : Char) : Char :=
  if 'A' ≤ c && c ≤ 'Z' then Char.ofNat (c.toNat + 32)
  else if c = 'Ž' then 'ž'
  else if c = 'Š' then 'š'
  else if c = 'Č' then 'č'
  else if c = 'Ř' then 'ř'
  else if c = 'Ď' then 'ď'
  else if c = 'Ť' then 'ť'
  else if c = 'Ň' then 'ň'
  else if c = 'Ě' then 'ě'
  else if c = 'Á' then 'á'
  else if c = 'É' then 'é'
  else if c = 'Í' then 'í'
  else if c = 'Ó' then 'ó'
  else if c = 'Ú' then 'ú'
  else if c = 'Ů' then 'ů'
  else if c = 'Ý' then 'ý'
  else c

/-- Python `str.lower()` over a character list. -/
def pyLower (s : List Char) : List Char :=
  s.map pyLowerChar

/-- Python substring test `needle in hay`. -/
def containsSub (needle : List Char) : List Char → Bool
  | [] => needle.isEmpty
  | c :: rest => needle.isPrefixOf (c :: rest) || containsSub needle rest

/-!
## Nutrient splitter (`parse_nutrients`, main.py lines 55-85)

`NUTRIENT_ITEM_REGEX = re.compile(r'([^,]+\([^)]*\))')` used via `findall`,
and `NUTRIENT_NAME_AND_QTY_REGEX = re.compile(r'(.*?)\((.*?)\)')` used via
`match`.
-/

/-- One backtracking step of matching `[^,]+\([^)]*\)` at the head of `s`:
try letting `[^,]+` consume `j+1`, `j`, ..., `1` characters (Python tries
the greedy, longest consumption first and backtracks downwards).  For a
given consumption `c`, the regex then requires a literal `(` at index `c`,
after which `[^)]*\)` consumes exactly up to the first `)`.  Returns the
total length of the match. -/
def tryConsume (s : List Char) : Nat → Option Nat
  | 0 => none
  | j + 1 =>
    match s.drop (j + 1) with
    | '(' :: rest =>
      match rest.findIdx? (fun c => c = ')') with
      | some m => some ((j + 1) + 1 + m + 1)
      | none => tryConsume s j
    | _ => tryConsume s j

/-- Length of the match of `[^,]+\([^)]*\)` at the head of `s`, if any.
`[^,]+` can consume at most the maximal comma-free prefix. -/
def matchItemLen (s : List Char) : Option Nat :=
  tryConsume s ((s.takeWhile (fun c => c ≠ ',')).length)

/-- Model of the `re.findall` scan for `NUTRIENT_ITEM_REGEX`: attempt a match at each
position, emit it and resume after it, else advance one character.  `fuel`
bounds the recursion; every step consumes at least one character, so
`fuel = s.length` (supplied by `findallItems`) is exact. -/
def findallAux : Nat → List Char → List (List Char)
  | 0, _ => []
  | fuel + 1, s =>
    match s with
    | [] => []
    | c :: cs =>
      match matchItemLen (c :: cs) with
      | some n => (c :: cs).take n :: findallAux fuel ((c :: cs).drop n)
      | none => findallAux fuel cs

/-- Model of `NUTRIENT_ITEM_REGEX.findall(text)`. -/
def findallItems (s : List Char) : List (List Char) :=
  findallAux s.length s

/-- Model of the `(.*?)\)` part of `NUTRIENT_NAME_AND_QTY_REGEX`: lazily scan for the
first `)`; `.` does not match a newline, so a newline before the first `)`
makes the group fail. -/
def findParenQty : List Char → Option (List Char)
  | [] => none
  | c :: cs =>
    if c = ')' then some []
    else if c = '\n' then none
    else (findParenQty cs).map fun q => c :: q

/-- Model of `NUTRIENT_NAME_AND_QTY_REGEX.match(item)`: lazy `(.*?)\((.*?)\)`.
Group 1 grows lazily over non-newline characters up to a `(`; if the
quantity group fails after that `(`, the engine backtracks and lets group 1
swallow the `(`. Returns (group 1, group 2). -/
def matchNameQty : List Char → Option (List Char × List Char)
  | [] => none
  | c :: cs =>
    if c = '(' then
      match findParenQty cs with
      | some q => some ([], q)
      | none =>
        match matchNameQty cs with
        | some nq => some (c :: nq.1, nq.2)
        | none => none
    else if c = '\n' then none
    else
      match matchNameQty cs with
      | some nq => some (c :: nq.1, nq.2)
      | none => none

/-- The per-item body of the loop in `parse_nutrients`: strip the item, try
`NUTRIENT_NAME_AND_QTY_REGEX`, and on success return the stripped groups,
otherwise the whole item as name with empty quantity. -/
def nutrientItemToPair (item : List Char) : String × String :=
  let it := pyStrip item
  match matchNameQty it with
  | some nq => (String.mk (pyStrip nq.1), String.mk (pyStrip nq.2))
  | none => (String.mk it, "")

/-- Model of `parse_nutrients` (main.py lines 60-85). -/
def parse_nutrients (s : String) : List (String × String) :=
  (findallItems s.toList).map nutrientItemToPair

example : parse_nutrients "" = [] := by decide

example :
    parse_nutrients "Celkové Tuky(99.7g),Sacharidy(0g), Cukr(0g), Vitamin A(700), Bílkoviny(0g)" =
      [("Celkové Tuky", "99.7g"), ("Sacharidy", "0g"), ("Cukr", "0g"),
        ("Vitamin A", "700"), ("Bílkoviny", "0g")] := by decide

example : parse_nutrients "Tuky(9g), abc" = [("Tuky", "9g")] := by decide

example : parse_nutrients "a\nb(c)" = [("a\nb(c)", "")] := by decide

example : parse_nutrients "a(b)c(d)" = [("a", "b")] := by decide

example : parse_nutrients "a(b,c)" = [("a", "b,c")] := by decide

example : parse_nutrients "abc" = [] := by decide

example : parse_nutrients ",,a(1)" = [("a", "1")] := by decide

example : parse_nutrients "x()" = [("x", "")] := by decide

example : parse_nutrients "((a))" = [("", "(a")] := by decide

example : parse_nutrients "a(b" = [] := by decide

example : parse_nutrients " (x)" = [("", "x")] := by decide

example : parse_nutrients "a((b))" = [("a", "(b")] := by decide

example : parse_nutrients "a(1)b, c(2)" = [("a", "1"), ("c", "2")] := by decide

example : parse_nutrients ")x(y)" = [(")x", "y")] := by decide

/-!
## Document model (the `bs4` collaborator)

The script consumes a parsed HTML document only through
`soup.find_all("p")`, `p.find("strong")`, `strong.get_text(strip=True)`,
`strong.extract()` and `p.get_text(strip=True)`.  We model a paragraph as
its ordered list of inline nodes (plain strings and `<strong>` spans) and a
document as the ordered list of its `<p>` paragraphs.
-/

/-- An inline node of a paragraph: a plain string or a `<strong>` span. -/
inductive Inline where
  | text : String → Inline
  | strong : String → Inline
deriving DecidableEq

/-- A `<p>` block: its ordered inline nodes. -/
abbrev Para := List Inline

/-- A parsed document: the ordered list of its `<p>` blocks
(`soup.find_all("p")`). -/
abbrev Doc := List Para

/-- The string carried by an inline node. -/
def Inline.str : Inline → String
  | .text s => s
  | .strong s => s

/-- Whether an inline node is a `<strong>` span. -/
def Inline.isStrongTag : Inline → Bool
  | .text _ => false
  | .strong _ => true

/-- Model of `p.find("strong")`: the first `<strong>` span of the block, if any. -/
def firstStrong (p : Para) : Option String :=
  p.findSome? fun n =>
    match n with
    | .strong s => some s
    | .text _ => none

/-- Model of `strong.extract()`: the block with its first `<strong>` span removed. -/
def removeFirstStrong : Para → Para
  | [] => []
  | .strong _ :: rest => rest
  | .text s :: rest => .text s :: removeFirstStrong rest

/-- Model of `p.get_text(strip=True)` with the default empty separator: each string
of the block is stripped, and the results are concatenated. -/
def getTextStrip (p : Para) : String :=
  String.mk (p.map (fun n => pyStrip n.str.toList)).flatten

/-- The match test of `extract_field` for one `<strong>` text: some label,
lowercased, is a substring of the strong text stripped and lowercased. -/
def labelHit (labels : List String) (strongText : String) : Bool :=
  labels.any fun label =>
    containsSub (pyLower label.toList) (pyLower (pyStrip strongText.toList))

/-- Model of `extract_field` (main.py lines 88-102).  Scans the `<p>` blocks in
order; at the first block having a `<strong>` whose text passes `labelHit`,
removes that `<strong>` and returns the remaining block text.  The second
component is the document after the (local) `strong.extract()` mutation. -/
def extract_field (doc : Doc) (labels : List String) : String × Doc :=
  match doc with
  | [] => ("", [])
  | p :: rest =>
    match firstStrong p with
    | some s =>
      if labelHit labels s then
        (getTextStrip (removeFirstStrong p), removeFirstStrong p :: rest)
      else
        let rd := extract_field rest labels
        (rd.1, p :: rd.2)
    | none =>
      let rd := extract_field rest labels
      (rd.1, p :: rd.2)

/-- Model of the `known_markers` list of `extract_description` (main.py line 110). -/
def known_markers : List String :=
  ["živiny", "složení", "ingredience", "skladování", "hmotnost", "původ", "allergen"]

/-- The skip test of `extract_description` for one `<strong>` text: some
known marker is a substring of the strong text stripped and lowercased. -/
def markerHit (strongText : String) : Bool :=
  known_markers.any fun marker =>
    containsSub marker.toList (pyLower (pyStrip strongText.toList))

/-- Model of `extract_description` (main.py lines 105-120).  Returns the text of the
first `<p>` that is not one of the known labeled fields; a block without a
`<strong>` is never skipped. -/
def extract_description : Doc → String
  | [] => ""
  | p :: rest =>
    match firstStrong p with
    | some s => if markerHit s then extract_description rest else getTextStrip p
    | none => getTextStrip p

/-- Per-block match decision of `extract_field`: the block has a `<strong>`
and its first `<strong>` text passes `labelHit`. -/
def blockMatches (labels : List String) (p : Para) : Bool :=
  match firstStrong p with
  | some s => labelHit labels s
  | none => false

/-- Per-block skip decision of `extract_description`. -/
def skipsBlock (p : Para) : Bool :=
  match firstStrong p with
  | some s => markerHit s
  | none => false

/-!
## Row builder (`build_rows_for_product`, main.py lines 131-196)
-/

/-- One CSV row: the 10 columns of `CSV_COLUMNS` (main.py lines 12-23). -/
structure Row where
  SKU : String
  Title : String
  Description : String
  Allergen : String
  Ingredients : String
  Storage : String
  Weight : String
  Origin : String
  Nutrient : String
  Quantity : String
deriving DecidableEq

/-- A row with every column empty (used as an explicit `getD` default). -/
def emptyRow : Row :=
  ⟨"", "", "", "", "", "", "", "", "", ""⟩

/-- Model of `build_rows_for_product` (main.py lines 131-196).  The code builds a
fresh `BeautifulSoup(body_html)` for each extraction, modelled by applying
the abstract `parse` to `body_html` at each call site. -/
def build_rows_for_product (parse : String → Doc) (sku title body_html : String) :
    List Row :=
  let description := extract_description (parse body_html)
  let allergen := (extract_field (parse body_html) ["Allergen"]).1
  let ingredients := (extract_field (parse body_html) ["Složení", "Ingredience"]).1
  let storage := (extract_field (parse body_html) ["Skladování"]).1
  let weight := (extract_field (parse body_html) ["Hmotnost"]).1
  let origin := (extract_field (parse body_html) ["Původ"]).1
  let nutrient_block := (extract_field (parse body_html) ["Živiny"]).1
  let nutrient_pairs := parse_nutrients nutrient_block
  let fullRow : String × String → Row := fun pr =>
    ⟨sku, title, description, allergen, ingredients, storage, weight, origin, pr.1, pr.2⟩
  let blankRow : String × String → Row := fun pr =>
    ⟨"", "", "", "", "", "", "", "", pr.1, pr.2⟩
  if nutrient_pairs.isEmpty then
    [fullRow ("", "")]
  else
    nutrient_pairs.enum.map fun ip => if ip.1 = 0 then fullRow ip.2 else blankRow ip.2

/-!
## Record aggregation (STEP 1, main.py lines 32-48) and the final row list
(STEP 4, main.py lines 203-208)
-/

/-- One entry of the input JSON array: `record.get("sku", "")`,
`record.get("key")` (absent modelled as `none`), and
`record.get("translation", "")`. -/
structure RawRecord where
  sku : String
  key : Option String
  translation : String
deriving DecidableEq

/-- The per-SKU dictionary value built by STEP 1: a dict that may lack the
`"title"` and `"body_html"` keys, read back with `.get(_, "")` in STEP 4. -/
structure ProductInfo where
  title : Option String
  body_html : Option String
deriving DecidableEq

/-- The insertion-ordered `products` dictionary. -/
abbrev Products := List (String × ProductInfo)

/-- Overwrite the entry for `sku` (Python `products[sku][...] = ...`). -/
def updateAt (ps : Products) (sku : String) (f : ProductInfo → ProductInfo) : Products :=
  ps.map fun e => if e.1 == sku then (e.1, f e.2) else e

/-- Python `sku in products`. -/
def hasSku (ps : Products) (sku : String) : Bool :=
  ps.any fun e => e.1 == sku

/-- The body of the STEP 1 loop for one record: skip an empty SKU, create
the entry if absent, then overwrite the field selected by `key`
(unrecognized keys leave the entry unchanged). -/
def ingest (ps : Products) (r : RawRecord) : Products :=
  if r.sku = "" then ps
  else
    let ps1 := if hasSku ps r.sku then ps else ps ++ [(r.sku, ⟨none, none⟩)]
    if r.key = some "title" then
      updateAt ps1 r.sku fun i => { i with title := some r.translation }
    else if r.key = some "body_html" then
      updateAt ps1 r.sku fun i => { i with body_html := some r.translation }
    else ps1

/-- The whole STEP 1 loop. -/
def aggregate (rs : List RawRecord) : Products :=
  rs.foldl ingest []

/-- Python `products.get`-style lookup in the ordered dictionary. -/
def lookupSku (ps : Products) (sku : String) : Option ProductInfo :=
  (ps.find? fun e => e.1 == sku).map Prod.snd

/-- The translation of the last record for `sku` whose key is `k`, if any
(the value that last-write-wins aggregation must produce). -/
def lastFor (rs : List RawRecord) (sku k : String) : Option String :=
  ((rs.filter fun r => r.sku == sku && r.key == some k).map RawRecord.translation).getLast?

/-- STEP 4 (main.py lines 203-208): concatenate the per-product rows in
dictionary order, reading absent fields back as `""`. -/
def all_csv_rows (parse : String → Doc) (rs : List RawRecord) : List Row :=
  (aggregate rs).flatMap fun e =>
    build_rows_for_product parse e.1 (e.2.title.getD "") (e.2.body_html.getD "")

example :
    aggregate [⟨"A", some "price", "x"⟩] = [("A", ⟨none, none⟩)] := by decide

example :
    all_csv_rows (fun _ => []) [⟨"A", some "price", "x"⟩] =
      [⟨"A", "", "", "", "", "", "", "", "", ""⟩] := by decide

example :
    aggregate [⟨"A", some "title", "T1"⟩, ⟨"A", some "title", "T2"⟩,
        ⟨"A", some "body_html", "B"⟩] =
      [("A", ⟨some "T2", some "B"⟩)] := by decide

/-!
## Helper lemmas about the extractors
-/

theorem firstStrong_of_prefix_plain (pre : Para) (s : String) (rest : Para)
    (hpre : ∀ x ∈ pre, x.isStrongTag = false) :
    firstStrong (pre ++ Inline.strong s :: rest) = some s := by
  induction pre with
  | nil => rfl
  | cons x xs ih =>
    cases x with
    | text u =>
      simp only [List.cons_append, firstStrong, List.findSome?_cons]
      exact ih fun y hy => hpre y (List.mem_cons_of_mem _ hy)
    | strong u =>
      have := hpre (Inline.strong u) (List.mem_cons_self _ _)
      simp [Inline.isStrongTag] at this

/-- Unfolding shape of `List.find?` on a cons cell. -/
theorem find?_cons_eq {α : Type} (p : α → Bool) (a : α) (l : List α) :
    (a :: l).find? p = if p a then some a else l.find? p := by
  by_cases h : p a <;> simp [List.find?_cons, h]

/-- C4 — `extract_field` scans blocks in document order, matches the first
block whose first `<strong>` text contains some label case-insensitively,
removes that `<strong>`, and returns the rest of the block text; with no
matching block it returns the empty string. -/
theorem claim_C4 (doc : Doc) (labels : List String) :
    (extract_field doc labels).1 =
      (match doc.find? (blockMatches labels) with
        | some p => getTextStrip (removeFirstStrong p)
        | none => "") := by
  induction doc with
  | nil => rfl
  | cons p rest ih =>
    rw [find?_cons_eq]
    cases hs : firstStrong p with
    | none =>
      have hb : blockMatches labels p = false := by simp [blockMatches, hs]
      simpa [extract_field, hs, hb] using ih
    | some s =>
      by_cases hl : labelHit labels s
      · have hb : blockMatches labels p = true := by simp [blockMatches, hs, hl]
        simp [extract_field, hs, hl, hb]
      · have hb : blockMatches labels p = false := by
          simp [blockMatches, hs]
          exact Bool.of_not_eq_true hl
        simpa [extract_field, hs, hl, hb] using ih

/-- C7 — `extract_description` returns the full text of the first block that
is not skipped, a block being skipped exactly when its first `<strong>` text
contains a known marker; blocks without a `<strong>` are never skipped, and
with no qualifying block the result is the empty string. -/
theorem claim_C7 (doc : Doc) :
    extract_description doc =
      (match doc.find? (fun p => !skipsBlock p) with
        | some p => getTextStrip p
        | none => "") := by
  induction doc with
  | nil => rfl
  | cons p rest ih =>
    rw [find?_cons_eq]
    cases hs : firstStrong p with
    | none =>
      have hb : skipsBlock p = false := by simp [skipsBlock, hs]
      simp [extract_description, hs, hb]
    | some s =>
      by_cases hm : markerHit s
      · have hb : skipsBlock p = true := by simp [skipsBlock, hs, hm]
        simpa [extract_description, hs, hm, hb] using ih
      · have hb : skipsBlock p = false := by
          simp [skipsBlock, hs]
          exact Bool.of_not_eq_true hm
        simp [extract_description, hs, hm, hb]

/-- C9 — only a block's first `<strong>` span is consulted: with a strong
lead-in `s` that matches no label, a label occurring only in a later strong
span `t` of the same block never makes `extract_field` match the block, and
a marker occurring only in `t` never makes `extract_description` skip it. -/
theorem claim_C9 (pre mid post : Para) (s t : String) (labels : List String)
    (hpre : ∀ x ∈ pre, x.isStrongTag = false) :
    (labelHit labels s = false →
      (extract_field [pre ++ (Inline.strong s :: (mid ++ (Inline.strong t :: post)))] labels).1
        = "") ∧
    (markerHit s = false →
      extract_description [pre ++ (Inline.strong s :: (mid ++ (Inline.strong t :: post)))] =
        getTextStrip (pre ++ (Inline.strong s :: (mid ++ (Inline.strong t :: post))))) := by
  have hfs :
      firstStrong (pre ++ (Inline.strong s :: (mid ++ (Inline.strong t :: post)))) = some s :=
    firstStrong_of_prefix_plain pre s (mid ++ (Inline.strong t :: post)) hpre
  constructor
  · intro hl
    simp [extract_field, hfs, hl]
  · intro hm
    simp [extract_description, hfs, hm]

theorem claim_C9_witness :
    (extract_field [[Inline.strong "Poznámka:", Inline.strong "Složení"]]
        ["Složení", "Ingredience"]).1 = "" ∧
    extract_description [[Inline.strong "Poznámka:", Inline.strong "Složení"]] =
      getTextStrip [Inline.strong "Poznámka:", Inline.strong "Složení"] :=
  ⟨(claim_C9 [] [] [] "Poznámka:" "Složení" ["Složení", "Ingredience"]
      (by intro x hx; cases hx)).1 (by decide),
    (claim_C9 [] [] [] "Poznámka:" "Složení" ["Složení", "Ingredience"]
      (by intro x hx; cases hx)).2 (by decide)⟩

/-- C8 — a product with empty markup: every extraction returns the empty
string on the empty document, and the row builder emits exactly one row
with SKU and Title populated and all other columns empty. -/
theorem claim_C8 (parse : String → Doc) (sku title : String) (labels : List String)
    (hP : parse "" = []) :
    extract_field ([] : Doc) labels = ("", []) ∧
    extract_description ([] : Doc) = "" ∧
    build_rows_for_product parse sku title "" =
      [⟨sku, title, "", "", "", "", "", "", "", ""⟩] := by
  refine ⟨rfl, rfl, ?_⟩
  simp [build_rows_for_product, hP, extract_field, extract_description, parse_nutrients,
    findallItems, findallAux]

theorem claim_C8_witness :
    extract_field ([] : Doc) ["Allergen"] = ("", []) ∧
    extract_description ([] : Doc) = "" ∧
    build_rows_for_product (fun _ => []) "SKU1" "T" "" =
      [⟨"SKU1", "T", "", "", "", "", "", "", "", ""⟩] :=
  claim_C8 (fun _ => []) "SKU1" "T" ["Allergen"] rfl

/-!
## Helper lemmas about the row builder
-/

theorem enumFrom_map_if_zero {α : Type} (full blank : String × String → α) :
    ∀ (l : List (String × String)) (k : Nat),
      ((List.enumFrom (k + 1) l).map fun ip => if ip.1 = 0 then full ip.2 else blank ip.2) =
        l.map blank := by
  intro l
  induction l with
  | nil => intro k; rfl
  | cons x xs ih =>
    intro k
    simp only [List.enumFrom, List.map_cons, Nat.succ_ne_zero, if_false]
    exact congrArg (blank x :: ·) (ih (k + 1))

theorem enum_map_if_zero {α : Type} (full blank : String × String → α)
    (h0 : String × String) (l : List (String × String)) :
    ((h0 :: l).enum.map fun ip => if ip.1 = 0 then full ip.2 else blank ip.2) =
      full h0 :: l.map blank := by
  simp only [List.enum, List.enumFrom, List.map_cons, if_pos rfl]
  exact congrArg (full h0 :: ·) (enumFrom_map_if_zero full blank l 0)

/-- The shape of `build_rows_for_product` once the nutrient pairs are known:
either the single full row, or the full row on the head pair followed by
blank rows on the tail pairs. -/
theorem build_rows_shape (parse : String → Doc) (sku title body : String) :
    build_rows_for_product parse sku title body =
      (match parse_nutrients ((extract_field (parse body) ["Živiny"]).1) with
        | [] =>
          [⟨sku, title, extract_description (parse body),
            (extract_field (parse body) ["Allergen"]).1,
            (extract_field (parse body) ["Složení", "Ingredience"]).1,
            (extract_field (parse body) ["Skladování"]).1,
            (extract_field (parse body) ["Hmotnost"]).1,
            (extract_field (parse body) ["Původ"]).1, "", ""⟩]
        | h :: t =>
          ⟨sku, title, extract_description (parse body),
            (extract_field (parse body) ["Allergen"]).1,
            (extract_field (parse body) ["Složení", "Ingredience"]).1,
            (extract_field (parse body) ["Skladování"]).1,
            (extract_field (parse body) ["Hmotnost"]).1,
            (extract_field (parse body) ["Původ"]).1, h.1, h.2⟩ ::
            t.map fun pr => ⟨"", "", "", "", "", "", "", "", pr.1, pr.2⟩) := by
  unfold build_rows_for_product
  cases hp : parse_nutrients ((extract_field (parse body) ["Živiny"]).1) with
  | nil => simp [hp]
  | cons h t =>
    simp only [hp, List.isEmpty_cons, if_false, Bool.false_eq_true]
    exact enum_map_if_zero
      (fun pr => (⟨sku, title, extract_description (parse body),
        (extract_field (parse body) ["Allergen"]).1,
        (extract_field (parse body) ["Složení", "Ingredience"]).1,
        (extract_field (parse body) ["Skladování"]).1,
        (extract_field (parse body) ["Hmotnost"]).1,
        (extract_field (parse body) ["Původ"]).1, pr.1, pr.2⟩ : Row))
      (fun pr => (⟨"", "", "", "", "", "", "", "", pr.1, pr.2⟩ : Row)) h t

/-- C1 — for every product draft the builder emits exactly
`max 1 N` rows where `N` is the number of nutrient pairs; row 0 is the only
row with a non-empty SKU, and every later row has all eight product-level
columns empty while carrying its own nutrient pair in splitter order. -/
theorem claim_C1 (parse : String → Doc) (sku title body : String) (hsku : sku ≠ "") :
    (build_rows_for_product parse sku title body).length =
      max 1 (parse_nutrients ((extract_field (parse body) ["Živiny"]).1)).length ∧
    (∀ i, i < (build_rows_for_product parse sku title body).length →
      ((((build_rows_for_product parse sku title body).getD i emptyRow).SKU ≠ "") ↔ i = 0)) ∧
    (∀ i, 1 ≤ i → i < (build_rows_for_product parse sku title body).length →
      (build_rows_for_product parse sku title body).getD i emptyRow =
        ⟨"", "", "", "", "", "", "", "",
          ((parse_nutrients ((extract_field (parse body) ["Živiny"]).1)).getD i ("", "")).1,
          ((parse_nutrients ((extract_field (parse body) ["Živiny"]).1)).getD i ("", "")).2⟩) := by
  rw [build_rows_shape parse sku title body]
  cases hp : parse_nutrients ((extract_field (parse body) ["Živiny"]).1) with
  | nil =>
    refine ⟨rfl, ?_, ?_⟩
    · intro i hi
      simp only [List.length_cons, List.length_nil] at hi
      have hi0 : i = 0 := by omega
      subst hi0
      simpa using hsku
    · intro i h1 hi
      simp only [List.length_cons, List.length_nil] at hi
      omega
  | cons h t =>
    refine ⟨?_, ?_, ?_⟩
    · simp [Nat.max_eq_right (Nat.succ_le_succ (Nat.zero_le _))]
    · intro i hi
      cases i with
      | zero => simpa using hsku
      | succ j =>
        simp only [List.length_cons, List.length_map] at hi
        have hj : j < t.length := Nat.lt_of_succ_lt_succ hi
        constructor
        · intro hne
          exfalso
          apply hne
          simp [List.getD, List.getElem?_cons_succ, List.getElem?_map,
            List.getElem?_eq_getElem hj]
        · intro h0
          exact absurd h0 (Nat.succ_ne_zero j)
    · intro i h1 hi
      cases i with
      | zero => omega
      | succ j =>
        simp only [List.length_cons, List.length_map] at hi
        have hj : j < t.length := Nat.lt_of_succ_lt_succ hi
        simp [List.getD, List.getElem?_cons_succ, List.getElem?_map,
          List.getElem?_eq_getElem hj]

/-- Demonstration parse used by witnesses: a one-block document whose
strong lead-in is the nutrient label and whose body holds two pairs. -/
def demoParse : String → Doc :=
  fun _ => [[Inline.strong "Živiny:", Inline.text "A(1),B(2)"]]

theorem claim_C1_witness :
    (build_rows_for_product demoParse "S" "T" "x").length = 2 ∧
    (build_rows_for_product demoParse "S" "T" "x").getD 1 emptyRow =
      ⟨"", "", "", "", "", "", "", "", "B", "2"⟩ := by
  have h := claim_C1 demoParse "S" "T" "x" (by decide)
  refine ⟨?_, ?_⟩
  · rw [h.1]; decide
  · rw [h.2.2 1 (by decide) (by decide)]; decide

/-!
## Helper lemmas about stripping and the name/quantity match
-/

theorem pyStripLeft_append_of_head (n : List Char) (c : Char) (r : List Char)
    (hc : isPySpace c = false) :
    pyStripLeft (n ++ c :: r) = pyStripLeft n ++ c :: r := by
  induction n with
  | nil => simp [pyStripLeft, List.dropWhile, hc]
  | cons a n ih =>
    by_cases ha : isPySpace a
    · simpa [pyStripLeft, List.dropWhile, ha] using ih
    · simp [pyStripLeft, List.dropWhile, ha]

theorem pyStripRight_concat_of_last (l : List Char) (c : Char) (hc : isPySpace c = false) :
    pyStripRight (l ++ [c]) = l ++ [c] := by
  simp [pyStripRight, List.dropWhile, hc]

theorem pyStripLeft_idem (l : List Char) : pyStripLeft (pyStripLeft l) = pyStripLeft l := by
  induction l with
  | nil => rfl
  | cons a l ih =>
    by_cases ha : isPySpace a
    · simpa [pyStripLeft, List.dropWhile, ha] using ih
    · simp [pyStripLeft, List.dropWhile, ha]

theorem pyStrip_pyStripLeft (l : List Char) : pyStrip (pyStripLeft l) = pyStrip l := by
  simp [pyStrip, pyStripLeft_idem]

theorem pyStrip_item_shape (n q : List Char) :
    pyStrip (n ++ '(' :: (q ++ [')'])) = pyStripLeft n ++ '(' :: (q ++ [')']) := by
  have h1 : pyStripLeft (n ++ '(' :: (q ++ [')'])) = pyStripLeft n ++ '(' :: (q ++ [')']) :=
    pyStripLeft_append_of_head n '(' (q ++ [')']) (by decide)
  have h2 : pyStripLeft n ++ '(' :: (q ++ [')']) = (pyStripLeft n ++ '(' :: q) ++ [')'] := by
    simp
  calc pyStrip (n ++ '(' :: (q ++ [')']))
      = pyStripRight (pyStripLeft n ++ '(' :: (q ++ [')'])) := by rw [pyStrip, h1]
    _ = pyStripRight ((pyStripLeft n ++ '(' :: q) ++ [')']) := by rw [h2]
    _ = (pyStripLeft n ++ '(' :: q) ++ [')'] :=
        pyStripRight_concat_of_last _ ')' (by decide)
    _ = pyStripLeft n ++ '(' :: (q ++ [')']) := by simp

theorem findParenQty_closed (q : List Char) (hq : ')' ∉ q) (hn : '\n' ∉ q) :
    findParenQty (q ++ [')']) = some q := by
  induction q with
  | nil => rfl
  | cons c q ih =>
    have hc1 : c ≠ ')' := fun h => hq (h ▸ List.mem_cons_self c q)
    have hc2 : c ≠ '\n' := fun h => hn (h ▸ List.mem_cons_self c q)
    have := ih (fun h => hq (List.mem_cons_of_mem c h))
      (fun h => hn (List.mem_cons_of_mem c h))
    simp [findParenQty, hc1, hc2, this]

theorem matchNameQty_split (n rest q : List Char) (hn1 : '(' ∉ n) (hn2 : '\n' ∉ n)
    (hq : findParenQty rest = some q) :
    matchNameQty (n ++ '(' :: rest) = some (n, q) := by
  induction n with
  | nil => simp [matchNameQty, hq]
  | cons c n ih =>
    have hc1 : c ≠ '(' := fun h => hn1 (h ▸ List.mem_cons_self c n)
    have hc2 : c ≠ '\n' := fun h => hn2 (h ▸ List.mem_cons_self c n)
    have hrec := ih (fun h => hn1 (List.mem_cons_of_mem c h))
      (fun h => hn2 (List.mem_cons_of_mem c h))
    by_cases hpar : c = '('
    · exact absurd hpar hc1
    · simp [matchNameQty, hpar, hc2, hrec]

theorem mem_of_mem_pyStripLeft {c : Char} {l : List Char} (h : c ∈ pyStripLeft l) : c ∈ l :=
  (List.dropWhile_sublist isPySpace).mem h

/-- C3 (amended) — the sample string splits into the five expected pairs in
order; every item of the form `<name>(<qty>)` whose name part contains no
`(` and no newline and whose quantity part contains no `)` and no newline
parses into (name trimmed, quantity trimmed); and the empty input yields
the empty sequence.  (The newline restriction is forced: Python `.` does
not match a newline, so such items fall back to (whole item, "").) -/
theorem claim_C3_amended :
    parse_nutrients "Celkové Tuky(99.7g),Sacharidy(0g), Cukr(0g), Vitamin A(700), Bílkoviny(0g)" =
      [("Celkové Tuky", "99.7g"), ("Sacharidy", "0g"), ("Cukr", "0g"),
        ("Vitamin A", "700"), ("Bílkoviny", "0g")] ∧
    (∀ (n q : List Char), '(' ∉ n → '\n' ∉ n → ')' ∉ q → '\n' ∉ q →
      nutrientItemToPair (n ++ '(' :: (q ++ [')'])) =
        (String.mk (pyStrip n), String.mk (pyStrip q))) ∧
    parse_nutrients "" = [] := by
  refine ⟨by decide, ?_, by decide⟩
  intro n q hn1 hn2 hq1 hq2
  have hstrip := pyStrip_item_shape n q
  have hfind := findParenQty_closed q hq1 hq2
  have hmatch : matchNameQty (pyStripLeft n ++ '(' :: (q ++ [')'])) = some (pyStripLeft n, q) :=
    matchNameQty_split (pyStripLeft n) (q ++ [')']) q
      (fun h => hn1 (mem_of_mem_pyStripLeft h))
      (fun h => hn2 (mem_of_mem_pyStripLeft h)) hfind
  simp only [nutrientItemToPair, hstrip, hmatch]
  rw [pyStrip_pyStripLeft]

/-- C3 counterexample — an item whose name part contains a newline is not
split into (name, quantity): Python `.` does not match a newline, so the
name/quantity regex fails and the whole item is kept with empty quantity,
contradicting the claim's unrestricted reading. -/
theorem claim_C3_cex :
    parse_nutrients "a\nb(c)" = [("a\nb(c)", "")] ∧
    parse_nutrients "a\nb(c)" ≠ [("a\nb", "c")] :=
  ⟨by decide, by decide⟩

theorem claim_C3_witness :
    nutrientItemToPair (['a', 'b'] ++ '(' :: (['1', 'g'] ++ [')'])) = ("ab", "1g") := by
  have h := claim_C3_amended.2.1 ['a', 'b'] ['1', 'g']
    (by decide) (by decide) (by decide) (by decide)
  rw [h]; decide

/-- C6 (amended) — the splitter drops nothing in its second step: the
output has exactly one pair per tokenized item, and an item on which the
name/quantity regex fails (possible when a newline precedes the `(` or
the `)`) is retained as (whole item trimmed, empty quantity).  However, a
comma-separated fragment without a parenthesized group never survives the
first, tokenizing step. -/
theorem claim_C6_amended :
    (∀ s : String, (parse_nutrients s).length = (findallItems s.toList).length) ∧
    (∀ item : List Char, matchNameQty (pyStrip item) = none →
      nutrientItemToPair item = (String.mk (pyStrip item), "")) := by
  constructor
  · intro s
    simp [parse_nutrients]
  · intro item h
    simp [nutrientItemToPair, h]

/-- C6 counterexample — a comma-separated item without a parenthesized
group is silently dropped by the splitter, not retained with an empty
quantity: `"abc"` never appears in the output. -/
theorem claim_C6_cex :
    parse_nutrients "Tuky(9g), abc" = [("Tuky", "9g")] ∧
    ("abc", "") ∉ parse_nutrients "Tuky(9g), abc" :=
  ⟨by decide, by decide⟩

theorem claim_C6_witness :
    nutrientItemToPair ("a\nb(c)".toList) = ("a\nb(c)", "") := by
  have h := claim_C6_amended.2 ("a\nb(c)".toList) (by decide)
  rw [h]; decide

/-!
## Helper lemmas about the aggregation dictionary
-/

theorem lookupSku_cons (e : String × ProductInfo) (ps : Products) (I : String) :
    lookupSku (e :: ps) I = if e.1 = I then some e.2 else lookupSku ps I := by
  by_cases h : e.1 = I <;> simp [lookupSku, List.find?_cons, h]

theorem lookup_updateAt (ps : Products) (s : String) (f : ProductInfo → ProductInfo)
    (I : String) :
    lookupSku (updateAt ps s f) I =
      if I = s then (lookupSku ps I).map f else lookupSku ps I := by
  induction ps with
  | nil => by_cases h : I = s <;> simp [updateAt, lookupSku, h]
  | cons e ps ih =>
    have hhead : updateAt (e :: ps) s f =
        (if e.1 == s then (e.1, f e.2) else e) :: updateAt ps s f := rfl
    rw [hhead]
    by_cases hes : e.1 = s
    · by_cases heI : e.1 = I
      · have hIs : I = s := heI ▸ hes
        simp [lookupSku_cons, hes, heI, hIs]
      · have hIs : I ≠ s := fun h => heI (h ▸ hes)
        simp [lookupSku_cons, hes, heI, hIs, hIs.symm, ih]
    · by_cases heI : e.1 = I
      · have hIs : I ≠ s := fun h => hes (heI.trans h)
        simp [lookupSku_cons, hes, heI, hIs]
      · simp [lookupSku_cons, hes, heI, ih]

theorem lookup_append_some (ps qs : Products) (I : String) (v : ProductInfo)
    (h : lookupSku ps I = some v) : lookupSku (ps ++ qs) I = some v := by
  induction ps with
  | nil => simp [lookupSku] at h
  | cons e ps ih =>
    by_cases he : e.1 = I <;> simp_all [lookupSku_cons]

theorem lookup_append_none (ps qs : Products) (I : String)
    (h : lookupSku ps I = none) : lookupSku (ps ++ qs) I = lookupSku qs I := by
  induction ps with
  | nil => rfl
  | cons e ps ih =>
    by_cases he : e.1 = I <;> simp_all [lookupSku_cons]

theorem hasSku_eq_isSome (ps : Products) (I : String) :
    hasSku ps I = (lookupSku ps I).isSome := by
  induction ps with
  | nil => rfl
  | cons e ps ih =>
    by_cases he : e.1 = I <;> simp_all [hasSku, lookupSku_cons, List.any_cons]

theorem lastFor_concat (rs : List RawRecord) (r : RawRecord) (I k : String) :
    lastFor (rs ++ [r]) I k =
      if (r.sku == I && r.key == some k) = true then some r.translation
      else lastFor rs I k := by
  cases hp : (r.sku == I && r.key == some k) <;>
    simp [lastFor, List.filter_append, List.filter, hp, List.map_append, List.getLast?_concat]

theorem lastFor_of_not_any (rs : List RawRecord) (I k : String)
    (h : (rs.any fun r => r.sku == I) = false) : lastFor rs I k = none := by
  induction rs with
  | nil => rfl
  | cons r rs ih =>
    simp only [List.any_cons, Bool.or_eq_false_iff] at h
    have hr : (r.sku == I && r.key == some k) = false := by simp [h.1]
    simpa [lastFor, List.filter_cons, hr] using ih h.2

/-- Value of the dictionary entry for `r.sku` after one non-skipped
ingestion step: the prior entry (or a fresh empty one) with the field
selected by `r.key` overwritten. -/
theorem lookup_ingest_eq (ps : Products) (r : RawRecord) (h : r.sku ≠ "") :
    lookupSku (ingest ps r) r.sku =
      some (if r.key = some "title" then
              { (lookupSku ps r.sku).getD ⟨none, none⟩ with title := some r.translation }
            else if r.key = some "body_html" then
              { (lookupSku ps r.sku).getD ⟨none, none⟩ with body_html := some r.translation }
            else (lookupSku ps r.sku).getD ⟨none, none⟩) := by
  have hps1 :
      lookupSku (if hasSku ps r.sku then ps else ps ++ [(r.sku, ⟨none, none⟩)]) r.sku =
        some ((lookupSku ps r.sku).getD ⟨none, none⟩) := by
    by_cases hh : hasSku ps r.sku
    · rw [hasSku_eq_isSome] at hh
      obtain ⟨v, hv⟩ := Option.isSome_iff_exists.mp hh
      simp [hasSku_eq_isSome, hh, hv]
    · have hnone : lookupSku ps r.sku = none := by
        rw [hasSku_eq_isSome] at hh
        simpa using hh
      rw [if_neg hh, lookup_append_none _ _ _ hnone, hnone]
      simp [lookupSku_cons]
  by_cases hk1 : r.key = some "title"
  · simp [ingest, h, hk1, lookup_updateAt, hps1]
  · by_cases hk2 : r.key = some "body_html"
    · simp [ingest, h, hk1, hk2, lookup_updateAt, hps1]
    · simp [ingest, h, hk1, hk2, hps1]

/-- An ingestion step for a different (or empty) SKU does not change the
entry of `I`. -/
theorem lookup_ingest_ne (ps : Products) (r : RawRecord) (I : String) (h : r.sku ≠ I) :
    lookupSku (ingest ps r) I = lookupSku ps I := by
  by_cases hs : r.sku = ""
  · simp [ingest, hs]
  · have hps1 :
        lookupSku (if hasSku ps r.sku then ps else ps ++ [(r.sku, ⟨none, none⟩)]) I =
          lookupSku ps I := by
      by_cases hh : hasSku ps r.sku
      · rw [if_pos hh]
      · rw [if_neg hh]
        cases hv : lookupSku ps I with
        | some v => exact lookup_append_some _ _ _ _ hv
        | none =>
          rw [lookup_append_none _ _ _ hv]
          simp [lookupSku_cons, lookupSku, h]
    have hne : I ≠ r.sku := fun hh => h hh.symm
    by_cases hk1 : r.key = some "title"
    · simp [ingest, hs, hk1, lookup_updateAt, hne, hps1]
    · by_cases hk2 : r.key = some "body_html"
      · simp [ingest, hs, hk1, hk2, lookup_updateAt, hne, hps1]
      · simp [ingest, hs, hk1, hk2, hps1]

/-- The central aggregation invariant: after STEP 1, the entry of a
non-empty identifier `I` exists iff some record mentions `I`, and then
holds exactly the last-written title and body translations. -/
theorem lookup_aggregate (rs : List RawRecord) (I : String) (hI : I ≠ "") :
    lookupSku (aggregate rs) I =
      if (rs.any fun r => r.sku == I) = true then
        some ⟨lastFor rs I "title", lastFor rs I "body_html"⟩
      else none := by
  induction rs using List.reverseRecOn with
  | nil => rfl
  | append_singleton rs r ih =>
    have hfold : aggregate (rs ++ [r]) = ingest (aggregate rs) r := by
      simp [aggregate, List.foldl_append]
    rw [hfold]
    by_cases hrI : r.sku = I
    · have hsku : r.sku ≠ "" := fun h => hI (hrI ▸ h)
      have hany : ((rs ++ [r]).any fun x => x.sku == I) = true := by
        simp [List.any_append, hrI]
      rw [hany, if_pos rfl, ← hrI, lookup_ingest_eq (aggregate rs) r hsku, hrI]
      have hbeq : (r.sku == I) = true := by simp [hrI]
      by_cases hk1 : r.key = some "title"
      · have ht : lastFor (rs ++ [r]) I "title" = some r.translation := by
          rw [lastFor_concat]
          simp [hbeq, hk1]
        have hb : lastFor (rs ++ [r]) I "body_html" = lastFor rs I "body_html" := by
          rw [lastFor_concat]
          simp [hk1]
        rw [ht, hb, if_pos hk1]
        cases hprev : (rs.any fun x => x.sku == I) with
        | true =>
          rw [hprev, if_pos rfl] at ih
          simp [ih]
        | false =>
          rw [hprev] at ih
          simp only [Bool.false_eq_true, if_false] at ih
          simp [ih, lastFor_of_not_any rs I _ hprev]
      · by_cases hk2 : r.key = some "body_html"
        · have ht : lastFor (rs ++ [r]) I "title" = lastFor rs I "title" := by
            rw [lastFor_concat]
            simp [hk1]
          have hb : lastFor (rs ++ [r]) I "body_html" = some r.translation := by
            rw [lastFor_concat]
            simp [hbeq, hk2]
          rw [ht, hb, if_neg hk1, if_pos hk2]
          cases hprev : (rs.any fun x => x.sku == I) with
          | true =>
            rw [hprev, if_pos rfl] at ih
            simp [ih]
          | false =>
            rw [hprev] at ih
            simp only [Bool.false_eq_true, if_false] at ih
            simp [ih, lastFor_of_not_any rs I _ hprev]
        · have ht : lastFor (rs ++ [r]) I "title" = lastFor rs I "title" := by
            rw [lastFor_concat]
            simp [hk1]
          have hb : lastFor (rs ++ [r]) I "body_html" = lastFor rs I "body_html" := by
            rw [lastFor_concat]
            simp [hk2]
          rw [ht, hb, if_neg hk1, if_neg hk2]
          cases hprev : (rs.any fun x => x.sku == I) with
          | true =>
            rw [hprev, if_pos rfl] at ih
            simp [ih]
          | false =>
            rw [hprev] at ih
            simp only [Bool.false_eq_true, if_false] at ih
            simp [ih, lastFor_of_not_any rs I _ hprev]
    · have hbeq : (r.sku == I) = false := by simp [hrI]
      have hany : ((rs ++ [r]).any fun x => x.sku == I) = (rs.any fun x => x.sku == I) := by
        simp [List.any_append, hbeq]
      have ht : lastFor (rs ++ [r]) I "title" = lastFor rs I "title" := by
        rw [lastFor_concat]
        simp [hbeq]
      have hb : lastFor (rs ++ [r]) I "body_html" = lastFor rs I "body_html" := by
        rw [lastFor_concat]
        simp [hbeq]
      rw [lookup_ingest_ne (aggregate rs) r I hrI, hany, ht, hb]
      exact ih

theorem keys_updateAt (ps : Products) (s : String) (f : ProductInfo → ProductInfo) :
    (updateAt ps s f).map Prod.fst = ps.map Prod.fst := by
  induction ps with
  | nil => rfl
  | cons e ps ih =>
    by_cases h : e.1 = s <;> simp_all [updateAt]

theorem nodup_keys_ingest (ps : Products) (r : RawRecord)
    (h : (ps.map Prod.fst).Nodup) : ((ingest ps r).map Prod.fst).Nodup := by
  by_cases hs : r.sku = ""
  · simpa [ingest, hs] using h
  · have hps1 : ((if hasSku ps r.sku then ps else ps ++ [(r.sku, ⟨none, none⟩)]).map
        Prod.fst).Nodup := by
      by_cases hh : hasSku ps r.sku
      · simpa [hh] using h
      · have hmem : r.sku ∉ ps.map Prod.fst := by
          intro hmem
          obtain ⟨e, he, hfst⟩ := List.mem_map.mp hmem
          have : hasSku ps r.sku = true := by
            rw [hasSku, List.any_eq_true]
            exact ⟨e, he, by simp [hfst]⟩
          exact hh this
        rw [if_neg hh]
        simp only [List.map_append, List.map_cons, List.map_nil]
        rw [List.nodup_append]
        exact ⟨h, List.nodup_singleton _, by simpa [List.disjoint_singleton] using hmem⟩
    by_cases hk1 : r.key = some "title"
    · simpa [ingest, hs, hk1, keys_updateAt] using hps1
    · by_cases hk2 : r.key = some "body_html"
      · simpa [ingest, hs, hk1, hk2, keys_updateAt] using hps1
      · simpa [ingest, hs, hk1, hk2] using hps1

theorem nodup_keys_aggregate (rs : List RawRecord) :
    ((aggregate rs).map Prod.fst).Nodup := by
  have hgen : ∀ (l : List RawRecord) (ps : Products), (ps.map Prod.fst).Nodup →
      ((l.foldl ingest ps).map Prod.fst).Nodup := by
    intro l
    induction l with
    | nil => intro ps h; exact h
    | cons r l ih => intro ps h; exact ih _ (nodup_keys_ingest ps r h)
  exact hgen rs [] (by simp)

theorem countP_eq_one_of_nodup (ps : Products) (I : String)
    (hnd : (ps.map Prod.fst).Nodup) (hs : (lookupSku ps I).isSome = true) :
    (ps.countP fun e => e.1 == I) = 1 := by
  induction ps with
  | nil => simp [lookupSku] at hs
  | cons e ps ih =>
    rw [List.map_cons, List.nodup_cons] at hnd
    by_cases he : e.1 = I
    · have hzero : (ps.countP fun x => x.1 == I) = 0 := by
        rw [List.countP_eq_zero]
        intro x hx hbeq
        have hxI : x.1 = I := by simpa using hbeq
        exact hnd.1 (List.mem_map.mpr ⟨x, hx, hxI.trans he.symm⟩)
      simp [List.countP_cons, he, hzero]
    · have hs2 : (lookupSku ps I).isSome = true := by
        rw [lookupSku_cons, if_neg he] at hs
        exact hs
      simp [List.countP_cons, he, ih hnd.2 hs2]

/-- C2 — for every identifier with at least one title or body record, the
aggregation holds exactly one draft for it, whose title and markup are the
translations of the last title and last body record (last-write-wins);
records with an empty identifier are skipped, and a record with an
unrecognized key leaves an existing draft unchanged. -/
theorem claim_C2 (rs : List RawRecord) (I : String) (hI : I ≠ "")
    (hrec : (rs.any fun r => r.sku == I &&
        (r.key == some "title" || r.key == some "body_html")) = true) :
    ((aggregate rs).countP fun e => e.1 == I) = 1 ∧
    lookupSku (aggregate rs) I = some ⟨lastFor rs I "title", lastFor rs I "body_html"⟩ ∧
    (∀ (ps : Products) (r : RawRecord), r.sku = "" → ingest ps r = ps) ∧
    (∀ (ps : Products) (r : RawRecord),
      hasSku ps r.sku = true → r.key ≠ some "title" → r.key ≠ some "body_html" →
      ingest ps r = ps) := by
  have hany : (rs.any fun r => r.sku == I) = true := by
    rw [List.any_eq_true] at hrec ⊢
    obtain ⟨r, hr, hcond⟩ := hrec
    simp only [Bool.and_eq_true] at hcond
    exact ⟨r, hr, hcond.1⟩
  have hlk := lookup_aggregate rs I hI
  rw [hany, if_pos rfl] at hlk
  refine ⟨?_, hlk, ?_, ?_⟩
  · exact countP_eq_one_of_nodup _ _ (nodup_keys_aggregate rs) (by simp [hlk])
  · intro ps r h
    simp [ingest, h]
  · intro ps r hh hk1 hk2
    by_cases hsk : r.sku = "" <;> simp [ingest, hsk, hh, hk1, hk2]

theorem claim_C2_witness :
    ((aggregate [⟨"A", some "title", "T1"⟩, ⟨"A", some "title", "T2"⟩,
        ⟨"A", some "price", "P"⟩, ⟨"A", some "body_html", "B"⟩]).countP
      fun e => e.1 == "A") = 1 ∧
    lookupSku (aggregate [⟨"A", some "title", "T1"⟩, ⟨"A", some "title", "T2"⟩,
        ⟨"A", some "price", "P"⟩, ⟨"A", some "body_html", "B"⟩]) "A" =
      some ⟨some "T2", some "B"⟩ := by
  have h := claim_C2 [⟨"A", some "title", "T1"⟩, ⟨"A", some "title", "T2"⟩,
    ⟨"A", some "price", "P"⟩, ⟨"A", some "body_html", "B"⟩] "A" (by decide) (by decide)
  exact ⟨h.1, by rw [h.2.1]; decide⟩

/-- C5 counterexample — an identifier appearing only in a record with an
unrecognized key is not dropped: STEP 1 still creates an (empty) draft for
it, and STEP 4 emits one output row whose SKU is the identifier and whose
other columns are all empty, contradicting "no ProductDraft and no output
row at all". -/
theorem claim_C5_cex :
    aggregate [⟨"A", some "price", "x"⟩] = [("A", ⟨none, none⟩)] ∧
    all_csv_rows (fun _ => []) [⟨"A", some "price", "x"⟩] =
      [⟨"A", "", "", "", "", "", "", "", "", ""⟩] :=
  ⟨by decide, by decide⟩

/-- Row list for a product whose markup is the empty string: with the empty
document, all extractions are empty and the single full row is emitted. -/
theorem build_rows_of_empty_markup (parse : String → Doc) (sku title : String)
    (hP : parse "" = []) :
    build_rows_for_product parse sku title "" =
      [⟨sku, title, "", "", "", "", "", "", "", ""⟩] := by
  simp [build_rows_for_product, hP, extract_field, extract_description, parse_nutrients,
    findallItems, findallAux]

/-- No row of a product with a different SKU has SKU `I`: the head row
carries the product's own SKU and every later row has an empty SKU. -/
theorem build_rows_filter_ne (parse : String → Doc) (sku title body I : String)
    (hne : sku ≠ I) (hI : I ≠ "") :
    (build_rows_for_product parse sku title body).filter (fun row => row.SKU == I) = [] := by
  rw [build_rows_shape]
  cases hp : parse_nutrients ((extract_field (parse body) ["Živiny"]).1) with
  | nil =>
    rw [List.filter_eq_nil_iff]
    intro row hrow
    simp only [List.mem_singleton] at hrow
    subst hrow
    simp [hne]
  | cons h t =>
    rw [List.filter_eq_nil_iff]
    intro row hrow
    simp only [List.mem_cons] at hrow
    rcases hrow with hrow | hrow
    · subst hrow
      simp [hne]
    · obtain ⟨pr, _, hpr⟩ := List.mem_map.mp hrow
      subst hpr
      simp
      exact fun hcontra => hI hcontra.symm

/-- A product dictionary with no entry for `I` contributes no row whose SKU
is `I`. -/
theorem flatMap_rows_filter_nil (parse : String → Doc) (I : String) (hI : I ≠ "")
    (l : Products) (h : ∀ e ∈ l, e.1 ≠ I) :
    ((l.flatMap fun e =>
        build_rows_for_product parse e.1 (e.2.title.getD "") (e.2.body_html.getD "")).filter
      fun row => row.SKU == I) = [] := by
  induction l with
  | nil => rfl
  | cons e l ih =>
    rw [List.flatMap_cons, List.filter_append,
      build_rows_filter_ne parse e.1 _ _ I (h e (List.mem_cons_self e l)) hI,
      List.nil_append]
    exact ih fun x hx => h x (List.mem_cons_of_mem e hx)

/-- A product dictionary whose unique entry for `I` is the empty draft
contributes exactly the blank row with SKU `I` to the output. -/
theorem flatMap_rows_filter_single (parse : String → Doc) (I : String) (hI : I ≠ "")
    (hP : parse "" = []) :
    ∀ l : Products, lookupSku l I = some ⟨none, none⟩ →
      (l.countP fun e => e.1 == I) = 1 →
      ((l.flatMap fun e =>
          build_rows_for_product parse e.1 (e.2.title.getD "") (e.2.body_html.getD "")).filter
        fun row => row.SKU == I) = [⟨I, "", "", "", "", "", "", "", "", ""⟩] := by
  intro l
  induction l with
  | nil =>
    intro hlk _
    simp [lookupSku] at hlk
  | cons e l ih =>
    intro hlk hcount
    rw [List.flatMap_cons, List.filter_append]
    by_cases he : e.1 = I
    · have hval : e.2 = ⟨none, none⟩ := by
        rw [lookupSku_cons, if_pos he] at hlk
        exact Option.some.inj hlk
      have hc0 : (l.countP fun x => x.1 == I) = 0 := by
        rw [List.countP_cons] at hcount
        simp only [he, beq_self_eq_true, if_pos] at hcount
        omega
      have hnil : ∀ x ∈ l, x.1 ≠ I := by
        intro x hx hxI
        have hfalse := List.countP_eq_zero.mp hc0 x hx
        simp [hxI] at hfalse
      rw [flatMap_rows_filter_nil parse I hI l hnil, List.append_nil, he, hval]
      rw [show ((⟨none, none⟩ : ProductInfo).title.getD "") = "" from rfl]
      rw [build_rows_of_empty_markup parse I "" hP]
      simp [List.filter]
    · have hlk2 : lookupSku l I = some ⟨none, none⟩ := by
        rw [lookupSku_cons, if_neg he] at hlk
        exact hlk
      have hc2 : (l.countP fun x => x.1 == I) = 1 := by
        rw [List.countP_cons] at hcount
        simpa [he] using hcount
      rw [build_rows_filter_ne parse e.1 _ _ I he hI, List.nil_append]
      exact ih hlk2 hc2

/-- C5 (amended) — for every input record sequence, a record with an empty
identifier is skipped entirely, but a non-empty identifier that appears in
some record while all its records carry unrecognized keys is NOT dropped:
the aggregation holds exactly one draft for it — the empty draft — and the
final output contains exactly one row whose SKU is that identifier, namely
the row with every other column empty. -/
theorem claim_C5_amended (parse : String → Doc) (rs : List RawRecord) (I : String)
    (hP : parse "" = []) (hI : I ≠ "")
    (hmem : (rs.any fun r => r.sku == I) = true)
    (hunrec : ∀ r ∈ rs, r.sku = I → r.key ≠ some "title" ∧ r.key ≠ some "body_html") :
    ((aggregate rs).countP fun e => e.1 == I) = 1 ∧
    lookupSku (aggregate rs) I = some ⟨none, none⟩ ∧
    ((all_csv_rows parse rs).filter fun row => row.SKU == I) =
      [⟨I, "", "", "", "", "", "", "", "", ""⟩] ∧
    (∀ (ps : Products) (r : RawRecord), r.sku = "" → ingest ps r = ps) := by
  have hfilter : ∀ k : String, k = "title" ∨ k = "body_html" →
      (rs.filter fun r => r.sku == I && r.key == some k) = [] := by
    intro k hk
    rw [List.filter_eq_nil_iff]
    intro r hr
    by_cases hs : r.sku = I
    · have hkey := hunrec r hr hs
      rcases hk with hk | hk
      · subst hk
        simp [hkey.1]
      · subst hk
        simp [hkey.2]
    · simp [hs]
  have hlastT : lastFor rs I "title" = none := by
    simp [lastFor, hfilter "title" (Or.inl rfl)]
  have hlastB : lastFor rs I "body_html" = none := by
    simp [lastFor, hfilter "body_html" (Or.inr rfl)]
  have hlk : lookupSku (aggregate rs) I = some ⟨none, none⟩ := by
    rw [lookup_aggregate rs I hI, hmem, if_pos rfl, hlastT, hlastB]
  have hcount : ((aggregate rs).countP fun e => e.1 == I) = 1 :=
    countP_eq_one_of_nodup _ _ (nodup_keys_aggregate rs) (by simp [hlk])
  refine ⟨hcount, hlk, ?_, fun ps r h => by simp [ingest, h]⟩
  exact flatMap_rows_filter_single parse I hI hP (aggregate rs) hlk hcount

theorem claim_C5_witness :
    ((aggregate [⟨"A", some "price", "p1"⟩, ⟨"C", some "title", "TC"⟩,
        ⟨"A", some "handle", "p2"⟩, ⟨"", some "title", "skip"⟩]).countP
      fun e => e.1 == "A") = 1 ∧
    lookupSku (aggregate [⟨"A", some "price", "p1"⟩, ⟨"C", some "title", "TC"⟩,
        ⟨"A", some "handle", "p2"⟩, ⟨"", some "title", "skip"⟩]) "A" =
      some ⟨none, none⟩ ∧
    ((all_csv_rows (fun _ => []) [⟨"A", some "price", "p1"⟩, ⟨"C", some "title", "TC"⟩,
        ⟨"A", some "handle", "p2"⟩, ⟨"", some "title", "skip"⟩]).filter
      fun row => row.SKU == "A") = [⟨"A", "", "", "", "", "", "", "", "", ""⟩] := by
  have h := claim_C5_amended (fun _ => [])
    [⟨"A", some "price", "p1"⟩, ⟨"C", some "title", "TC"⟩,
      ⟨"A", some "handle", "p2"⟩, ⟨"", some "title", "skip"⟩] "A"
    rfl (by decide) (by decide) (by decide)
  exact ⟨h.1, h.2.1, h.2.2.1⟩

/-- C10 — field extractions are mutually independent: every product-level
column of row 0 equals the standalone extraction of that field from a fresh
parse of the markup, and the nutrient columns are exactly the pairs split
out of the standalone nutrient-block extraction; no extraction sees the
lead-in removal done by another. -/
theorem claim_C10 (parse : String → Doc) (sku title body : String) :
    ((build_rows_for_product parse sku title body).getD 0 emptyRow).Description =
      extract_description (parse body) ∧
    ((build_rows_for_product parse sku title body).getD 0 emptyRow).Allergen =
      (extract_field (parse body) ["Allergen"]).1 ∧
    ((build_rows_for_product parse sku title body).getD 0 emptyRow).Ingredients =
      (extract_field (parse body) ["Složení", "Ingredience"]).1 ∧
    ((build_rows_for_product parse sku title body).getD 0 emptyRow).Storage =
      (extract_field (parse body) ["Skladování"]).1 ∧
    ((build_rows_for_product parse sku title body).getD 0 emptyRow).Weight =
      (extract_field (parse body) ["Hmotnost"]).1 ∧
    ((build_rows_for_product parse sku title body).getD 0 emptyRow).Origin =
      (extract_field (parse body) ["Původ"]).1 ∧
    (build_rows_for_product parse sku title body).map Row.Nutrient =
      (if (parse_nutrients ((extract_field (parse body) ["Živiny"]).1)).isEmpty then [""]
        else (parse_nutrients ((extract_field (parse body) ["Živiny"]).1)).map Prod.fst) ∧
    (build_rows_for_product parse sku title body).map Row.Quantity =
      (if (parse_nutrients ((extract_field (parse body) ["Živiny"]).1)).isEmpty then [""]
        else (parse_nutrients ((extract_field (parse body) ["Živiny"]).1)).map Prod.snd) := by
  rw [build_rows_shape parse sku title body]
  cases hp : parse_nutrients ((extract_field (parse body) ["Živiny"]).1) with
  | nil => exact ⟨rfl, rfl, rfl, rfl, rfl, rfl, rfl, rfl⟩
  | cons h t =>
    refine ⟨rfl, rfl, rfl, rfl, rfl, rfl, ?_, ?_⟩
    · simp [List.map_map, Function.comp]
    · simp [List.map_map, Function.comp]
